import Mathlib

/-!
Verification of the shell implementation (lexer, prefix tree, output writer,
line editor, pipeline executor, history) against its natural-language
specification.  Each Rust function named in a claim is translated here as a
computable Lean definition over lists and strings; panics are modelled as
Option.none, file systems as association lists from path to byte content,
and terminal output as the list of byte payloads handed to stdout / stderr.
-/

set_option maxRecDepth 10000

namespace Shell

/-! ## Redirection data model (src/writer.rs, enum Redirection) -/

/-- Per-stage redirection slot: stdout-to-file, stderr-to-file, or terminal. -/
inductive Redirection where
  | stdout (file_path : String) (append : Bool)
  | stderr (file_path : String) (append : Bool)
  | none
  deriving Repr, DecidableEq

/-! ## Lexer (src/args.rs and src/utils.rs) -/

/-- Embeds extract_redirection from src/args.rs.  The Rust loop walks the
token list; on a redirection operator it takes the following token with
args_iter.next().unwrap().  When no token follows, that unwrap panics; the
panic is modelled as Option.none. -/
def extract_redirection_go : List String → List String → Redirection →
    Option (List String × Redirection)
  | [], acc, r => some (acc, r)
  | a :: rest, acc, r =>
    if a = "1>" ∨ a = ">" then
      match rest with
      | [] => Option.none
      | p :: rest2 => extract_redirection_go rest2 acc (Redirection.stdout p false)
    else if a = "2>" then
      match rest with
      | [] => Option.none
      | p :: rest2 => extract_redirection_go rest2 acc (Redirection.stderr p false)
    else if a = "1>>" ∨ a = ">>" then
      match rest with
      | [] => Option.none
      | p :: rest2 => extract_redirection_go rest2 acc (Redirection.stdout p true)
    else if a = "2>>" then
      match rest with
      | [] => Option.none
      | p :: rest2 => extract_redirection_go rest2 acc (Redirection.stderr p true)
    else
      extract_redirection_go rest (acc ++ [a]) r

/-- extract_redirection (src/args.rs): split a stage's tokens into the final
argv and the redirection; none models the unwrap panic on a missing operand. -/
def extract_redirection (args : List String) : Option (List String × Redirection) :=
  extract_redirection_go args [] Redirection.none

/-- Quote mode of the tokenizer (src/args.rs, enum WaitFor). -/
inductive WaitFor where
  | space
  | singleQuote
  | doubleQuote
  deriving Repr, DecidableEq

/-- The character loop of parse_args (src/args.rs): split a line into tokens,
honouring single quotes, double quotes and backslash escapes.  Arguments:
remaining characters, committed tokens, current token, quote mode,
escape-pending flag. -/
def tokenize_go : List Char → List String → List Char → WaitFor → Bool → List String
  | [], args, arg, _, _ =>
    if arg.isEmpty then args else args ++ [String.mk arg]
  | c :: rest, args, arg, wf, true =>
    match wf with
    | WaitFor.space => tokenize_go rest args (arg ++ [c]) wf false
    | WaitFor.singleQuote => tokenize_go rest args (arg ++ ['\\', c]) wf false
    | WaitFor.doubleQuote =>
      if c = '\\' ∨ c = '"' then tokenize_go rest args (arg ++ [c]) wf false
      else tokenize_go rest args (arg ++ ['\\', c]) wf false
  | c :: rest, args, arg, wf, false =>
    if c = ' ' then
      match wf with
      | WaitFor.space =>
        if arg.isEmpty then tokenize_go rest args arg wf false
        else tokenize_go rest (args ++ [String.mk arg]) [] wf false
      | _ => tokenize_go rest args (arg ++ [' ']) wf false
    else if c = '\'' then
      match wf with
      | WaitFor.space => tokenize_go rest args arg WaitFor.singleQuote false
      | WaitFor.singleQuote => tokenize_go rest args arg WaitFor.space false
      | WaitFor.doubleQuote => tokenize_go rest args (arg ++ ['\'']) wf false
    else if c = '"' then
      match wf with
      | WaitFor.space => tokenize_go rest args arg WaitFor.doubleQuote false
      | WaitFor.doubleQuote => tokenize_go rest args arg WaitFor.space false
      | WaitFor.singleQuote => tokenize_go rest args (arg ++ ['"']) wf false
    else if c = '\\' then tokenize_go rest args arg wf true
    else tokenize_go rest args (arg ++ [c]) wf false

/-- The whole-string tokenizer phase of parse_args. -/
def tokenize (full_command : String) : List String :=
  tokenize_go full_command.data [] [] WaitFor.space false

/-- split_vec_by_delimiter (src/utils.rs): groups between delimiter tokens;
empty groups are not included in the result (its own doc comment says so). -/
def split_vec_go (d : String) : List String → List String → List (List String)
  | [], cur => if cur.isEmpty then [] else [cur]
  | x :: rest, cur =>
    if x = d then
      if cur.isEmpty then split_vec_go d rest []
      else cur :: split_vec_go d rest []
    else split_vec_go d rest (cur ++ [x])

/-- split_vec_by_delimiter (src/utils.rs). -/
def split_vec_by_delimiter (vec : List String) (d : String) : List (List String) :=
  split_vec_go d vec []

/-- parse_args (src/args.rs): tokenize, split stages on the pipe token, then
extract each stage's redirection.  Option.none models the panic that
extract_redirection raises on a dangling redirection operator. -/
def parse_args (full_command : String) : Option (List (List String × Redirection)) :=
  let args := tokenize full_command
  let groups := split_vec_by_delimiter args "|"
  groups.mapM extract_redirection

/-! ## Prefix tree (src/trie.rs) -/

/-- A node of the prefix tree.  The Rust HashMap from character to child is
modelled as an association list; insertion order stands in for iteration
order (the spec leaves completion order unspecified). -/
inductive TrieNode where
  | mk (children : List (Char × TrieNode)) (is_end : Bool)

/-- The child map of a node. -/
def TrieNode.children : TrieNode → List (Char × TrieNode)
  | TrieNode.mk cs _ => cs

/-- The terminal-word flag of a node. -/
def TrieNode.is_end : TrieNode → Bool
  | TrieNode.mk _ b => b

/-- HashMap::get on the child map. -/
def childLookup : List (Char × TrieNode) → Char → Option TrieNode
  | [], _ => Option.none
  | (k, v) :: rest, c => if k = c then some v else childLookup rest c

/-- HashMap entry update: replace the binding if the key is present,
otherwise add it. -/
def childUpdate : List (Char × TrieNode) → Char → TrieNode → List (Char × TrieNode)
  | [], c, n => [(c, n)]
  | (k, v) :: rest, c, n =>
    if k = c then (c, n) :: rest else (k, v) :: childUpdate rest c n

/-- Byte length of a character sequence, matching Rust str::len. -/
def utf8Len (l : List Char) : Nat := (l.map Char.utf8Size).sum

/-- Trie::insert (src/trie.rs).  Rust walks str.char_indices() and marks
is_end when byte_index + 1 == byte_length of the whole word, so only a word
whose final character is a single byte marks its last node. -/
def insertGo : TrieNode → List Char → Nat → Nat → TrieNode
  | n, [], _, _ => n
  | n, c :: rest, idx, len =>
    let child0 := (childLookup n.children c).getD (TrieNode.mk [] false)
    let child1 := TrieNode.mk child0.children (child0.is_end || (idx + 1 == len))
    let child2 := insertGo child1 rest (idx + c.utf8Size) len
    TrieNode.mk (childUpdate n.children c child2) n.is_end

/-- Trie::search (src/trie.rs): returns true only at the step where
byte_index + 1 equals the byte length and the node's is_end flag holds. -/
def searchGo : TrieNode → List Char → Nat → Nat → Bool
  | _, [], _, _ => false
  | n, c :: rest, idx, len =>
    match childLookup n.children c with
    | Option.none => false
    | some m =>
      if idx + 1 == len && m.is_end then true
      else searchGo m rest (idx + c.utf8Size) len

/-- Trie::starts_with (src/trie.rs): does the path of the characters exist. -/
def startsWithGo : TrieNode → List Char → Bool
  | _, [] => true
  | n, c :: rest =>
    match childLookup n.children c with
    | Option.none => false
    | some m => startsWithGo m rest

/-- Walk from a node along a character path to the node it designates. -/
def findNode : TrieNode → List Char → Option TrieNode
  | n, [] => some n
  | n, c :: rest =>
    match childLookup n.children c with
    | Option.none => Option.none
    | some m => findNode m rest

mutual
/-- Trie::collect_words (src/trie.rs): the current path when is_end holds,
then all words found in the children. -/
def collectWords : TrieNode → List Char → List (List Char)
  | TrieNode.mk cs e, pre =>
    (if e then [pre] else []) ++ collectChildren cs pre

/-- The child loop of Trie::collect_words. -/
def collectChildren : List (Char × TrieNode) → List Char → List (List Char)
  | [], _ => []
  | (c, child) :: rest, pre =>
    collectWords child (pre ++ [c]) ++ collectChildren rest pre
end

/-- The extension loop of Trie::longest_common_prefix (src/trie.rs): follow
the unique child while the current node is not a terminal word; stop on zero
children, two or more children, or a set terminal flag. -/
def lcpExt : TrieNode → List Char
  | TrieNode.mk [] _ => []
  | TrieNode.mk [(c, child)] e => if e then [] else c :: lcpExt child
  | TrieNode.mk (_ :: _ :: _) _ => []

/-- Trie::get_completions on a character sequence: empty on an empty or
absent prefix, otherwise all terminal descendants of the prefix node. -/
def completionsChars (root : TrieNode) (pre : List Char) : List (List Char) :=
  if pre.isEmpty then []
  else
    match findNode root pre with
    | Option.none => []
    | some n => collectWords n pre

/-- Trie::longest_common_prefix on a character sequence: empty string for an
empty or absent prefix, otherwise the prefix extended by the loop above. -/
def lcpChars (root : TrieNode) (pre : List Char) : List Char :=
  if pre.isEmpty then []
  else
    match findNode root pre with
    | Option.none => []
    | some n => pre ++ lcpExt n

/-- The trie structure (src/trie.rs, struct Trie). -/
structure Trie where
  root : TrieNode

/-- Trie::new. -/
def Trie.new : Trie := ⟨TrieNode.mk [] false⟩

/-- Trie::insert on a string. -/
def Trie.insert (t : Trie) (word : String) : Trie :=
  ⟨insertGo t.root word.data 0 (utf8Len word.data)⟩

/-- Trie::search on a string (the spec calls it contains). -/
def Trie.search (t : Trie) (word : String) : Bool :=
  searchGo t.root word.data 0 (utf8Len word.data)

/-- Trie::starts_with on a string. -/
def Trie.starts_with (t : Trie) (pre : String) : Bool :=
  startsWithGo t.root pre.data

/-- Trie::get_completions on a string. -/
def Trie.get_completions (t : Trie) (pre : String) : List String :=
  (completionsChars t.root pre.data).map String.mk

/-- Trie::longest_common_prefix on a string (the spec names this operation
longest_common_extension). -/
def Trie.longest_common_ext (t : Trie) (pre : String) : String :=
  String.mk (lcpChars t.root pre.data)

/-! ## UTF-8 encoding and decoding

The writer prints byte buffers through String::from_utf8_lossy and the editor
converts between its byte buffer and strings; these model the Rust std
conversions. -/

/-- UTF-8 encoding of one character. -/
def utf8EncodeChar (c : Char) : List UInt8 :=
  let n := c.toNat
  if n < 0x80 then [UInt8.ofNat n]
  else if n < 0x800 then
    [UInt8.ofNat (0xC0 ||| (n >>> 6)), UInt8.ofNat (0x80 ||| (n &&& 0x3F))]
  else if n < 0x10000 then
    [UInt8.ofNat (0xE0 ||| (n >>> 12)), UInt8.ofNat (0x80 ||| ((n >>> 6) &&& 0x3F)),
     UInt8.ofNat (0x80 ||| (n &&& 0x3F))]
  else
    [UInt8.ofNat (0xF0 ||| (n >>> 18)), UInt8.ofNat (0x80 ||| ((n >>> 12) &&& 0x3F)),
     UInt8.ofNat (0x80 ||| ((n >>> 6) &&& 0x3F)), UInt8.ofNat (0x80 ||| (n &&& 0x3F))]

/-- UTF-8 encoding of a character sequence (Rust str::as_bytes). -/
def utf8Encode (l : List Char) : List UInt8 :=
  l.foldr (fun c acc => utf8EncodeChar c ++ acc) []

/-- Is a byte a UTF-8 continuation byte (0x80 to 0xBF). -/
def isCont (b : UInt8) : Bool := 0x80 ≤ b && b ≤ 0xBF

/-- Assemble a code point from a 2-byte sequence. -/
def cp2 (b0 b1 : UInt8) : Char :=
  Char.ofNat (((b0.toNat &&& 0x1F) <<< 6) ||| (b1.toNat &&& 0x3F))

/-- Assemble a code point from a 3-byte sequence. -/
def cp3 (b0 b1 b2 : UInt8) : Char :=
  Char.ofNat (((b0.toNat &&& 0x0F) <<< 12) ||| ((b1.toNat &&& 0x3F) <<< 6) |||
    (b2.toNat &&& 0x3F))

/-- Assemble a code point from a 4-byte sequence. -/
def cp4 (b0 b1 b2 b3 : UInt8) : Char :=
  Char.ofNat (((b0.toNat &&& 0x07) <<< 18) ||| ((b1.toNat &&& 0x3F) <<< 12) |||
    ((b2.toNat &&& 0x3F) <<< 6) ||| (b3.toNat &&& 0x3F))

/-- Admissible first continuation byte range for a 3- or 4-byte head,
following the UTF-8 well-formedness table used by Rust std. -/
def contRange1 (b0 b1 : UInt8) : Bool :=
  if b0 = 0xE0 then 0xA0 ≤ b1 && b1 ≤ 0xBF
  else if b0 = 0xED then 0x80 ≤ b1 && b1 ≤ 0x9F
  else if b0 = 0xF0 then 0x90 ≤ b1 && b1 ≤ 0xBF
  else if b0 = 0xF4 then 0x80 ≤ b1 && b1 ≤ 0x8F
  else isCont b1

/-- Strict UTF-8 decoding (Rust String::from_utf8): none on any ill-formed
or incomplete sequence. -/
def utf8Decode : List UInt8 → Option (List Char)
  | [] => some []
  | b0 :: rest =>
    if b0 ≤ 0x7F then
      (utf8Decode rest).map (fun cs => Char.ofNat b0.toNat :: cs)
    else if 0xC2 ≤ b0 && b0 ≤ 0xDF then
      match rest with
      | b1 :: rest2 =>
        if isCont b1 then (utf8Decode rest2).map (fun cs => cp2 b0 b1 :: cs)
        else Option.none
      | [] => Option.none
    else if 0xE0 ≤ b0 && b0 ≤ 0xEF then
      match rest with
      | b1 :: b2 :: rest3 =>
        if contRange1 b0 b1 && isCont b2 then
          (utf8Decode rest3).map (fun cs => cp3 b0 b1 b2 :: cs)
        else Option.none
      | _ => Option.none
    else if 0xF0 ≤ b0 && b0 ≤ 0xF4 then
      match rest with
      | b1 :: b2 :: b3 :: rest4 =>
        if contRange1 b0 b1 && isCont b2 && isCont b3 then
          (utf8Decode rest4).map (fun cs => cp4 b0 b1 b2 b3 :: cs)
        else Option.none
      | _ => Option.none
    else Option.none

/-- The Unicode replacement character emitted by lossy decoding. -/
def replacementChar : Char := Char.ofNat 0xFFFD

/-- Lossy UTF-8 decoding (Rust String::from_utf8_lossy): each maximal
ill-formed subpart becomes one replacement character; the skip lengths
follow the number of bytes of the sequence that validated. -/
def utf8DecodeLossy : List UInt8 → List Char
  | [] => []
  | b0 :: rest =>
    if b0 ≤ 0x7F then Char.ofNat b0.toNat :: utf8DecodeLossy rest
    else if 0xC2 ≤ b0 && b0 ≤ 0xDF then
      match rest with
      | b1 :: rest2 =>
        if isCont b1 then cp2 b0 b1 :: utf8DecodeLossy rest2
        else replacementChar :: utf8DecodeLossy (b1 :: rest2)
      | [] => [replacementChar]
    else if 0xE0 ≤ b0 && b0 ≤ 0xEF then
      match rest with
      | b1 :: rest2 =>
        if contRange1 b0 b1 then
          match rest2 with
          | b2 :: rest3 =>
            if isCont b2 then cp3 b0 b1 b2 :: utf8DecodeLossy rest3
            else replacementChar :: utf8DecodeLossy (b2 :: rest3)
          | [] => [replacementChar]
        else replacementChar :: utf8DecodeLossy (b1 :: rest2)
      | [] => [replacementChar]
    else if 0xF0 ≤ b0 && b0 ≤ 0xF4 then
      match rest with
      | b1 :: rest2 =>
        if contRange1 b0 b1 then
          match rest2 with
          | b2 :: rest3 =>
            if isCont b2 then
              match rest3 with
              | b3 :: rest4 =>
                if isCont b3 then cp4 b0 b1 b2 b3 :: utf8DecodeLossy rest4
                else replacementChar :: utf8DecodeLossy (b3 :: rest4)
              | [] => [replacementChar]
            else replacementChar :: utf8DecodeLossy (b2 :: rest3)
          | [] => [replacementChar]
        else replacementChar :: utf8DecodeLossy (b1 :: rest2)
      | [] => [replacementChar]
    else replacementChar :: utf8DecodeLossy rest

/-! ## Output writer (src/writer.rs)

The file system is an association list from path to byte content; opening
with create makes a missing file empty; open and write errors are not
modelled (the claims describe the success behaviour).  Terminal output is
the list of byte payloads printed to each stream. -/

/-- The modelled file system. -/
abbrev Fs := List (String × List UInt8)

/-- Content of a file, if it exists. -/
def fsGet : Fs → String → Option (List UInt8)
  | [], _ => Option.none
  | (p, c) :: rest, q => if p = q then some c else fsGet rest q

/-- Create or replace a file's content. -/
def fsSet : Fs → String → List UInt8 → Fs
  | [], q, c => [(q, c)]
  | (p, c0) :: rest, q, c => if p = q then (q, c) :: rest else (p, c0) :: fsSet rest q c

/-- OpenOptions create without write: make the file exist, keep content. -/
def fsTouch (fs : Fs) (q : String) : Fs :=
  match fsGet fs q with
  | some _ => fs
  | Option.none => fsSet fs q []

/-- Result of one writer call: new file system, payloads printed to terminal
stdout and stderr, and the boolean the byte variants return. -/
structure WriteRes where
  fs : Fs
  term_out : List (List UInt8)
  term_err : List (List UInt8)
  ret : Bool

/-- CmdOutputWriter::output (src/writer.rs, byte buffer intended for stdout).
The Rust code opens with write+create (append as given), seeks to the end,
and writes there; it never truncates.  In the append-to-non-empty case it
writes a newline then the lossy-decoded buffer, otherwise the raw bytes. -/
def output (r : Redirection) (fs : Fs) (buf : List UInt8) : WriteRes :=
  match r with
  | Redirection.stdout path append =>
    let content := (fsGet fs path).getD []
    let newContent :=
      if append && decide (0 < content.length) then
        content ++ utf8Encode ('\n' :: utf8DecodeLossy buf)
      else content ++ buf
    { fs := fsSet fs path newContent, term_out := [], term_err := [], ret := false }
  | Redirection.stderr path _ =>
    let outs := if buf.isEmpty then [] else [utf8Encode (utf8DecodeLossy buf)]
    { fs := fsTouch fs path, term_out := outs, term_err := [], ret := !buf.isEmpty }
  | Redirection.none =>
    let outs := if buf.isEmpty then [] else [utf8Encode (utf8DecodeLossy buf)]
    { fs := fs, term_out := outs, term_err := [], ret := !buf.isEmpty }

/-- CmdOutputWriter::output_string (src/writer.rs, text intended for stdout).
Same non-truncating file behaviour as output; on the terminal println adds a
newline. -/
def output_string (r : Redirection) (fs : Fs) (s : String) : WriteRes :=
  match r with
  | Redirection.stdout path append =>
    let content := (fsGet fs path).getD []
    let newContent :=
      if append && decide (0 < content.length) then
        content ++ utf8Encode ('\n' :: s.data)
      else content ++ utf8Encode s.data
    { fs := fsSet fs path newContent, term_out := [], term_err := [], ret := false }
  | Redirection.stderr path _ =>
    { fs := fsTouch fs path, term_out := [utf8Encode s.data ++ [10]],
      term_err := [], ret := false }
  | Redirection.none =>
    { fs := fs, term_out := [utf8Encode s.data ++ [10]], term_err := [], ret := false }

/-- CmdOutputWriter::output_error (src/writer.rs, byte buffer intended for
stderr).  The Stderr arm opens without seeking, so append=false overwrites
from position zero leaving any longer tail; the Stdout arm prints to the
terminal and touches the file; the None arm does nothing at all. -/
def output_error (r : Redirection) (fs : Fs) (buf : List UInt8) : WriteRes :=
  match r with
  | Redirection.stderr path append =>
    let content := (fsGet fs path).getD []
    let newContent :=
      if append then content ++ buf else buf ++ content.drop buf.length
    { fs := fsSet fs path newContent, term_out := [], term_err := [], ret := false }
  | Redirection.stdout path _ =>
    let errs := if buf.isEmpty then [] else [utf8Encode (utf8DecodeLossy buf)]
    { fs := fsTouch fs path, term_out := [], term_err := errs, ret := !buf.isEmpty }
  | Redirection.none =>
    { fs := fs, term_out := [], term_err := [], ret := false }

/-- CmdOutputWriter::output_error_string (src/writer.rs, text intended for
stderr).  Same overwrite-from-zero file behaviour; the Stdout and None arms
print the text with a newline to terminal stderr. -/
def output_error_string (r : Redirection) (fs : Fs) (s : String) : WriteRes :=
  match r with
  | Redirection.stderr path append =>
    let content := (fsGet fs path).getD []
    let bytes := utf8Encode s.data
    let newContent :=
      if append then content ++ bytes else bytes ++ content.drop bytes.length
    { fs := fsSet fs path newContent, term_out := [], term_err := [], ret := false }
  | Redirection.stdout path _ =>
    { fs := fsTouch fs path, term_out := [],
      term_err := [utf8Encode s.data ++ [10]], ret := false }
  | Redirection.none =>
    { fs := fs, term_out := [], term_err := [utf8Encode s.data ++ [10]], ret := false }

/-! ## Command dispatcher and pipeline executor (src/command.rs, src/main.rs)

External collaborators (PATH lookup, spawned programs, the working
directory) are oracles carried in an environment record; the shell's own
glue — classification, built-in execution, the piping of one stage's output
into the next stage's stdin — is translated from the source. -/

/-- A spawned child: the bytes its stdin carries, and the bytes it emits on
stdout and stderr (determined by the behaviour oracle at spawn time). -/
structure ChildProc where
  stdin_bytes : List UInt8
  out : List UInt8
  err : List UInt8
  deriving Repr, DecidableEq

/-- CmdOutput (src/writer.rs). -/
inductive CmdOutputM where
  | stdoutText (s : String)
  | stderrText (s : String)
  | stdoutBytes (b : List UInt8)
  | stderrBytes (b : List UInt8)
  | stream (child : ChildProc)
  deriving Repr, DecidableEq

/-- CmdInput (src/command.rs). -/
inductive CmdInputM where
  | strIn (s : String)
  | bytesIn (b : List UInt8)
  | pipeIn (b : List UInt8)
  deriving Repr, DecidableEq

/-- Cmd (src/command.rs). -/
inductive CmdM where
  | exit
  | echo
  | type
  | executable (cmd : String) (path : String)
  | cd
  | pwd
  | unknown
  deriving Repr, DecidableEq

/-- Environment oracles: find_command over PATH, the behaviour of spawned
programs (stdout and stderr as a function of stdin), the terminal stdin a
stage inherits, the working directory, chdir success, and HOME. -/
structure Env where
  resolver : String → Option String
  behavior : String → List String → List UInt8 → List UInt8 × List UInt8
  inherit_stdin : List UInt8
  cwd : String
  chdir_ok : String → Bool
  home : Option String

/-- Cmd::from (src/command.rs): built-in names first, then PATH lookup. -/
def cmdFrom (resolver : String → Option String) (program : String) : CmdM :=
  match program with
  | "echo" => CmdM.echo
  | "exit" => CmdM.exit
  | "type" => CmdM.type
  | "pwd" => CmdM.pwd
  | "cd" => CmdM.cd
  | cmd =>
    match resolver cmd with
    | some p => CmdM.executable program p
    | Option.none =>
      let _ := cmd
      CmdM.unknown

/-- Rust str::parse::<u8>: optional leading plus sign, at least one digit,
value at most 255. -/
def parseU8 (s : String) : Option Nat :=
  let l := match s.data with
    | '+' :: r => r
    | l => l
  if l.isEmpty then Option.none
  else if l.all Char.isDigit then
    let n := l.foldl (fun a c => a * 10 + (c.toNat - 48)) 0
    if n ≤ 255 then some n else Option.none
  else Option.none

/-- expand_tilda (src/utils.rs): replace every tilde with HOME when HOME is
set, otherwise return the path unchanged. -/
def expand_tilda (home : Option String) (path : String) : String :=
  match home with
  | some h =>
    String.mk (path.data.foldr (fun c acc => if c = '~' then h.data ++ acc else c :: acc) [])
  | Option.none => path

/-- Result of executing one stage: its output pair plus a possible working
directory change and the bytes the shell wrote into a spawned child's
stdin, or process termination from the exit built-in. -/
inductive ExecOut where
  | out (stdout : Option CmdOutputM) (stderr : Option CmdOutputM)
      (newCwd : Option String) (child_stdin : Option (List UInt8))
  | exited (code : Nat)

/-- exec_exit (src/command.rs). -/
def exec_exit (cmd_args : List String) : ExecOut :=
  match cmd_args with
  | ["exit"] => ExecOut.exited 255
  | ["exit", code] =>
    match parseU8 code with
    | some n => ExecOut.exited n
    | Option.none =>
      ExecOut.out Option.none (some (CmdOutputM.stderrText "exit: invalid code"))
        Option.none Option.none
  | _ =>
    ExecOut.out Option.none (some (CmdOutputM.stderrText "exit: expected 1 arg at most"))
      Option.none Option.none

/-- exec_echo (src/command.rs): the arguments after the name joined by
single spaces, as stdout text. -/
def exec_echo (cmd_args : List String) : ExecOut :=
  ExecOut.out (some (CmdOutputM.stdoutText (String.intercalate " " (cmd_args.drop 1))))
    Option.none Option.none Option.none

/-- exec_type (src/command.rs). -/
def exec_type (resolver : String → Option String) (cmd_args : List String) : ExecOut :=
  match cmd_args with
  | ["type", command] =>
    match cmdFrom resolver command with
    | CmdM.unknown =>
      ExecOut.out Option.none (some (CmdOutputM.stderrText (command ++ ": not found")))
        Option.none Option.none
    | CmdM.executable cmd path =>
      ExecOut.out (some (CmdOutputM.stdoutText (cmd ++ " is " ++ path)))
        Option.none Option.none Option.none
    | _ =>
      ExecOut.out (some (CmdOutputM.stdoutText (command ++ " is a shell builtin")))
        Option.none Option.none Option.none
  | _ =>
    ExecOut.out Option.none (some (CmdOutputM.stderrText "type: expected 1 arg"))
      Option.none Option.none

/-- exec_cd (src/command.rs): no argument means tilde; a leading tilde is
expanded against HOME; the error message quotes the unexpanded path. -/
def exec_cd (env : Env) (cmd_args : List String) : ExecOut :=
  match cmd_args with
  | ["cd"] =>
    let target := expand_tilda env.home "~"
    if env.chdir_ok target then ExecOut.out Option.none Option.none (some target) Option.none
    else
      ExecOut.out Option.none
        (some (CmdOutputM.stderrText "cd: ~: No such file or directory"))
        Option.none Option.none
  | ["cd", path] =>
    let target := if path.data.head? = some '~' then expand_tilda env.home path else path
    if env.chdir_ok target then ExecOut.out Option.none Option.none (some target) Option.none
    else
      ExecOut.out Option.none
        (some (CmdOutputM.stderrText ("cd: " ++ path ++ ": No such file or directory")))
        Option.none Option.none
  | _ =>
    ExecOut.out Option.none (some (CmdOutputM.stderrText "cd: expected 1 arg at most"))
      Option.none Option.none

/-- exec_pwd (src/command.rs). -/
def exec_pwd (env : Env) (cmd_args : List String) : ExecOut :=
  match cmd_args with
  | ["pwd"] =>
    ExecOut.out (some (CmdOutputM.stdoutText env.cwd)) Option.none Option.none Option.none
  | _ =>
    ExecOut.out Option.none (some (CmdOutputM.stderrText "pwd: expected 0 args"))
      Option.none Option.none

/-- exec_executable (src/command.rs): stdin is the supplied CmdInput — an
inherited terminal, an in-memory buffer the shell writes into the child's
stdin then closes, or the OS pipe of the previous stage; stdout and stderr
are always captured into pipes and the stage's output is the live stream.
Spawn success is assumed (the resolver already found the file). -/
def exec_executable (env : Env) (path : String) (cmd_args : List String)
    (input : Option CmdInputM) : ExecOut :=
  let stdinBytes :=
    match input with
    | some (CmdInputM.pipeIn b) => b
    | some (CmdInputM.strIn s) => utf8Encode s.data
    | some (CmdInputM.bytesIn b) => b
    | Option.none => env.inherit_stdin
  let written :=
    match input with
    | some (CmdInputM.strIn s) => some (utf8Encode s.data)
    | some (CmdInputM.bytesIn b) => some b
    | _ => Option.none
  let oe := env.behavior path (cmd_args.drop 1) stdinBytes
  ExecOut.out (some (CmdOutputM.stream ⟨stdinBytes, oe.1, oe.2⟩)) Option.none
    Option.none written

/-- Cmd::exec (src/command.rs). -/
def cmdExec (env : Env) (c : CmdM) (cmd_args : List String)
    (input : Option CmdInputM) : ExecOut :=
  match c with
  | CmdM.exit => exec_exit cmd_args
  | CmdM.echo => exec_echo cmd_args
  | CmdM.type => exec_type env.resolver cmd_args
  | CmdM.executable _ path => exec_executable env path cmd_args input
  | CmdM.cd => exec_cd env cmd_args
  | CmdM.pwd => exec_pwd env cmd_args
  | CmdM.unknown => ExecOut.out Option.none Option.none Option.none Option.none

/-- An empty writer result over a file system. -/
def noRes (fs : Fs) : WriteRes :=
  { fs := fs, term_out := [], term_err := [], ret := false }

/-- CmdOutputWriter::write_cmd_output (src/writer.rs).  For a live stream
the stdout worker forwards the child's stdout through output and the stderr
worker forwards its stderr through output_error; each stream is modelled as
one chunk and the two workers as stdout first then stderr (the real
interleaving is unspecified).  The shared flags: a worker stores
last-byte-was-newline only when its chunk ends in a newline, and each store
of the written flag overwrites the previous one; after the wait, a trailing
newline is printed when something was written and no newline ended it. -/
def write_cmd_output (r : Redirection) (fs : Fs) (co : CmdOutputM) : WriteRes :=
  match co with
  | CmdOutputM.stdoutText s => output_string r fs s
  | CmdOutputM.stdoutBytes b => output r fs b
  | CmdOutputM.stderrText s => output_error_string r fs s
  | CmdOutputM.stderrBytes b => output_error r fs b
  | CmdOutputM.stream child =>
    let r1 := if child.out.isEmpty then noRes fs else output r fs child.out
    let r2 := if child.err.isEmpty then noRes r1.fs else output_error r r1.fs child.err
    let end_lf :=
      (!child.out.isEmpty && child.out.getLast? == some 10) ||
      (!child.err.isEmpty && child.err.getLast? == some 10)
    let was_written :=
      if !child.err.isEmpty then r2.ret
      else if !child.out.isEmpty then r1.ret
      else false
    let extra : List (List UInt8) := if was_written && !end_lf then [[10]] else []
    { fs := r2.fs, term_out := r1.term_out ++ r2.term_out ++ extra,
      term_err := r1.term_err ++ r2.term_err, ret := false }

/-- write_execution_output (src/main.rs): route the stdout slot, then the
stderr slot, through the writer for the stage's redirection. -/
def write_execution_output (r : Redirection) (fs : Fs)
    (o e : Option CmdOutputM) : WriteRes :=
  let r1 := match o with
    | some co => write_cmd_output r fs co
    | Option.none => noRes fs
  let r2 := match e with
    | some co => write_cmd_output r r1.fs co
    | Option.none => noRes r1.fs
  { fs := r2.fs, term_out := r1.term_out ++ r2.term_out,
    term_err := r1.term_err ++ r2.term_err, ret := false }

/-- Record of one executed stage: its argv, redirection, the CmdInput the
pipeline handed it, and the bytes the shell wrote into its child's stdin. -/
structure StageTrace where
  argv : List String
  redir : Redirection
  given : Option CmdInputM
  child_stdin : Option (List UInt8)
  deriving Repr, DecidableEq

/-- How a submitted line ends. -/
inductive RunOutcome where
  | finished
  | exited (code : Nat)
  | panicked
  deriving Repr, DecidableEq

/-- Shell state accumulated while a line runs. -/
structure RunSt where
  fs : Fs
  term_out : List (List UInt8)
  term_err : List (List UInt8)
  traces : List StageTrace

/-- The per-stage loop of main (src/main.rs): a stage is piped when it is
not last; an unknown name prints command-not-found for the whole line; the
first match arm stashes stdout as the next stage's stdin when there is no
stderr, the redirection does not claim stdout, and the stage is piped;
everything else goes to the writer.  Indexing argv[0] of an empty argv is
the panic the code would raise. -/
def runStages (env : Env) (line : String) :
    List (List String × Redirection) → Nat → Nat → Option CmdInputM → RunSt →
    RunSt × RunOutcome
  | [], _, _, _, st => (st, RunOutcome.finished)
  | (cmd_args, redir) :: rest, index, len, piped, st =>
    let is_piped := decide (index < len - 1)
    match cmd_args with
    | [] => (st, RunOutcome.panicked)
    | name :: _ =>
      match cmdFrom env.resolver name with
      | CmdM.unknown =>
        let st1 := { st with
          term_out := st.term_out ++ [utf8Encode line.data ++ utf8Encode ": command not found".data ++ [10]],
          traces := st.traces ++ [(⟨cmd_args, redir, piped, Option.none⟩ : StageTrace)] }
        let w := write_execution_output redir st1.fs Option.none Option.none
        let st2 := { st1 with fs := w.fs }
        runStages env line rest (index + 1) len Option.none st2
      | c =>
        match cmdExec env c cmd_args piped with
        | ExecOut.exited code =>
          ({ st with traces := st.traces ++ [(⟨cmd_args, redir, piped, Option.none⟩ : StageTrace)] },
            RunOutcome.exited code)
        | ExecOut.out o e newCwd childStdin =>
          let env1 := match newCwd with
            | some cwd => { env with cwd := cwd }
            | Option.none => env
          let st1 := { st with traces := st.traces ++ [(⟨cmd_args, redir, piped, childStdin⟩ : StageTrace)] }
          let pipeArm :=
            is_piped && o.isSome && e.isNone &&
              (match redir with
               | Redirection.stdout _ _ => false
               | _ => true)
          if pipeArm then
            let piped2 := match o with
              | some (CmdOutputM.stdoutText s) => some (CmdInputM.strIn s)
              | some (CmdOutputM.stdoutBytes b) => some (CmdInputM.bytesIn b)
              | some (CmdOutputM.stream child) => some (CmdInputM.pipeIn child.out)
              | _ => Option.none
            runStages env1 line rest (index + 1) len piped2 st1
          else
            let w := write_execution_output redir st1.fs o e
            let st2 := { st1 with
              fs := w.fs
              term_out := st1.term_out ++ w.term_out
              term_err := st1.term_err ++ w.term_err }
            runStages env1 line rest (index + 1) len Option.none st2

/-- Rust str::trim on a shell line, modelled over the character list with
ASCII whitespace (space, tab, carriage return, newline). -/
def trimChars (l : List Char) : List Char :=
  ((l.dropWhile Char.isWhitespace).reverse.dropWhile Char.isWhitespace).reverse

/-- One iteration of main's loop for a submitted line (src/main.rs): trim,
skip when empty, parse into stages (a dangling redirection operator panics),
then run the stages. -/
def runLine (env : Env) (fs : Fs) (raw_input : String) : RunSt × RunOutcome :=
  let input := String.mk (trimChars raw_input.data)
  let st0 : RunSt := { fs := fs, term_out := [], term_err := [], traces := [] }
  if input.isEmpty then (st0, RunOutcome.finished)
  else
    match parse_args input with
    | Option.none => (st0, RunOutcome.panicked)
    | some cmds_list => runStages env input cmds_list 0 cmds_list.length Option.none st0

/-- Modelled from the spec: the external program wc is not part of this
repository; the spec's end-to-end table stipulates that wc -c prints the
count of its stdin bytes followed by a newline. -/
def wc_c_behavior (stdin : List UInt8) : List UInt8 × List UInt8 :=
  (utf8Encode (toString stdin.length).data ++ [10], [])

/-- An environment whose PATH resolves wc and whose spawned wc -c behaves
as the spec stipulates. -/
def envWc : Env :=
  { resolver := fun s => if s = "wc" then some "/usr/bin/wc" else Option.none
    behavior := fun _path args stdin =>
      if args = ["-c"] then wc_c_behavior stdin else ([], [])
    inherit_stdin := []
    cwd := "/"
    chdir_ok := fun _ => true
    home := Option.none }

/-! ## Line editor (src/input.rs, read_input)

The editor is a byte-at-a-time state machine over the script of bytes the
terminal delivers; raw mode is a boolean tracked through every exit path.
Terminal echo is not modelled (it never feeds back into the state); the
buffer, quote-free tab-completion context, escape-sequence recognizer and
history cursor are. -/

/-- Rust String ordering (byte-wise, equivalent to code point order). -/
def charListLt : List Char → List Char → Bool
  | [], [] => false
  | [], _ :: _ => true
  | _ :: _, [] => false
  | a :: as, b :: bs => if a < b then true else if b < a then false else charListLt as bs

/-- Insert a string into an ascending list. -/
def insertSorted (s : String) : List String → List String
  | [] => [s]
  | t :: rest => if charListLt s.data t.data then s :: t :: rest else t :: insertSorted s rest

/-- Vec::sort on strings. -/
def sortStrings (l : List String) : List String :=
  l.foldl (fun acc s => insertSorted s acc) []

/-- SequenceState (src/input.rs): the escape-sequence recognizer. -/
inductive SequenceState where
  | normal
  | escReceived
  | bracketReceived
  deriving Repr, DecidableEq

/-- How read_input returns to its caller. -/
inductive ReadOutcome where
  | submitted (s : List Char)
  | cancelled
  | errUtf8
  | errRead
  deriving Repr, DecidableEq

/-- The returned value together with the terminal mode at the moment of
return: raw_mode is true when the terminal is still in raw mode. -/
structure ReadRes where
  outcome : ReadOutcome
  raw_mode : Bool
  deriving Repr, DecidableEq

/-- The byte loop of read_input (src/input.rs).  Arguments: completion trie,
history stack, remaining script bytes, input buffer, tab-completion enabled
flag with its saved completions, sequence state, history cursor.  Exits:
newline or carriage return breaks out and disables raw mode before the
final UTF-8 conversion; Ctrl-C returns directly; a failed read (script
exhausted) and a failed UTF-8 conversion inside the TAB arm propagate an
error — none of those three run disable_raw_mode. -/
def read_input_go (t : Trie) (history : List String) :
    List UInt8 → List UInt8 → Bool → List String → SequenceState → Nat → ReadRes
  | [], _, _, _, _, _ => { outcome := ReadOutcome.errRead, raw_mode := true }
  | b :: rest, input, tabEnabled, tabCompletions, seq, ptr =>
    let tabEnabled1 := if tabEnabled && b != 9 then false else tabEnabled
    let tabCompletions1 := if tabEnabled && b != 9 then [] else tabCompletions
    if b == 9 && tabEnabled1 then
      read_input_go t history rest input tabEnabled1 tabCompletions1
        SequenceState.normal ptr
    else if b == 9 then
      match utf8Decode input with
      | Option.none => { outcome := ReadOutcome.errUtf8, raw_mode := true }
      | some cs =>
        let c := sortStrings (t.get_completions (String.mk cs))
        match c with
        | [] =>
          read_input_go t history rest input tabEnabled1 tabCompletions1
            SequenceState.normal ptr
        | [first] =>
          read_input_go t history rest (utf8Encode first.data ++ [32]) tabEnabled1
            tabCompletions1 SequenceState.normal ptr
        | _ =>
          let pre := String.mk (utf8DecodeLossy input)
          let lcp := t.longest_common_ext pre
          if pre = lcp then
            read_input_go t history rest input true c SequenceState.normal ptr
          else
            read_input_go t history rest (utf8Encode lcp.data) true c
              SequenceState.normal ptr
    else if b == 10 || b == 13 then
      match utf8Decode input with
      | some cs => { outcome := ReadOutcome.submitted cs, raw_mode := false }
      | Option.none => { outcome := ReadOutcome.errUtf8, raw_mode := false }
    else if b == 3 then
      { outcome := ReadOutcome.cancelled, raw_mode := true }
    else if b == 8 || b == 127 then
      let input1 := if input.isEmpty then input else input.dropLast
      read_input_go t history rest input1 tabEnabled1 tabCompletions1
        SequenceState.normal ptr
    else if b == 27 && seq == SequenceState.normal then
      read_input_go t history rest input tabEnabled1 tabCompletions1
        SequenceState.escReceived ptr
    else if b == 91 && seq == SequenceState.escReceived then
      read_input_go t history rest input tabEnabled1 tabCompletions1
        SequenceState.bracketReceived ptr
    else if b == 65 && seq == SequenceState.bracketReceived then
      let ptr1 := if ptr != 0 then ptr - 1 else ptr
      read_input_go t history rest input tabEnabled1 tabCompletions1
        SequenceState.normal ptr1
    else if b == 66 && seq == SequenceState.bracketReceived then
      let ptr1 := if ptr == history.length then ptr else ptr + 1
      read_input_go t history rest input tabEnabled1 tabCompletions1
        SequenceState.normal ptr1
    else
      read_input_go t history rest (input ++ [b]) tabEnabled1 tabCompletions1
        SequenceState.normal ptr

/-- read_input (src/input.rs): enable raw mode, run the byte loop on the
script of available terminal bytes. -/
def read_input (t : Trie) (history : List String) (script : List UInt8) : ReadRes :=
  read_input_go t history script [] false [] SequenceState.normal history.length

/-! ## History (src/history.rs) -/

/-- Strip one trailing carriage return, as Rust BufRead::lines does after
removing the newline of a line. -/
def stripCR (l : List Char) : List Char :=
  if l.getLast? = some '\r' then l.dropLast else l

/-- Rust BufRead::lines over a file's characters: segments up to each
newline lose the newline and one trailing carriage return; a final segment
with no newline is yielded as is; an empty tail yields nothing. -/
def rustLinesGo : List Char → List Char → List (List Char)
  | [], cur => if cur.isEmpty then [] else [cur]
  | c :: rest, cur =>
    if c = '\n' then stripCR cur :: rustLinesGo rest []
    else rustLinesGo rest (cur ++ [c])

/-- BufRead::lines on a whole file content. -/
def rustLines (content : List Char) : List (List Char) :=
  rustLinesGo content []

/-- The bytes History::write_to_file produces for the stack: each entry
followed by one newline, in order (src/history.rs). -/
def write_content (stack : List String) : List Char :=
  (stack.map (fun line => line.data ++ ['\n'])).foldr (· ++ ·) []

/-- History::write_to_file (src/history.rs): truncate when append is false
(the options include truncate(!append)), else write after the prior
content. -/
def write_to_file (prior : Option (List Char)) (stack : List String)
    (append : Bool) : List Char :=
  (if append then prior.getD [] else []) ++ write_content stack

/-- load_file (src/history.rs): a missing file gives the empty list,
otherwise BufRead::lines of the content. -/
def load_file (content : Option (List Char)) : List String :=
  match content with
  | Option.none => []
  | some l => (rustLines l).map String.mk

/-- History::set_from_file (src/history.rs): clear the stack and extend it
with load_file of the file's content. -/
def set_from_file (content : Option (List Char)) : List String :=
  load_file content

/-- write_to_file with append=false followed by set_from_file on the
written content. -/
def historyRoundTrip (stack : List String) : List String :=
  set_from_file (some (write_to_file Option.none stack false))

/-! ## Helper lemmas -/

/-- Walking an appended path composes the two walks. -/
theorem findNode_append (p : List Char) :
    ∀ (n : TrieNode) (s : List Char),
      findNode n (p ++ s) =
        match findNode n p with
        | some m => findNode m s
        | Option.none => Option.none := by
  induction p with
  | nil => intro n s; simp [findNode]
  | cons c rest ih =>
    intro n s
    simp only [List.cons_append, findNode]
    cases childLookup n.children c with
    | none => rfl
    | some m => exact ih m s

mutual
/-- Every word collected below a node extends the prefix the node was
reached with. -/
theorem collect_pre : ∀ (n : TrieNode) (pre w : List Char), w ∈ collectWords n pre → pre <+: w
  | TrieNode.mk cs e, pre, w => by
    intro hw
    rw [collectWords] at hw
    rcases List.mem_append.mp hw with h | h
    · rcases e with _ | _
      · simp at h
      · simp at h
        exact h ▸ List.prefix_refl w
    · exact collectChildren_pre cs pre w h

/-- Child-map form of collect_pre. -/
theorem collectChildren_pre :
    ∀ (l : List (Char × TrieNode)) (pre w : List Char), w ∈ collectChildren l pre → pre <+: w
  | [], pre, w => by intro hw; rw [collectChildren] at hw; exact absurd hw (List.not_mem_nil w)
  | (c, child) :: rest, pre, w => by
    intro hw
    rw [collectChildren] at hw
    rcases List.mem_append.mp hw with h | h
    · exact (List.prefix_append pre [c]).trans (collect_pre child (pre ++ [c]) w h)
    · exact collectChildren_pre rest pre w h
end

/-- The extension loop ends at an existing node that has zero children,
two or more children, or a set terminal flag. -/
theorem lcpExt_stop :
    ∀ n : TrieNode, ∃ m, findNode n (lcpExt n) = some m ∧
      (m.children.length ≠ 1 ∨ m.is_end = true)
  | TrieNode.mk [] e => by
    refine ⟨TrieNode.mk [] e, by simp [lcpExt, findNode], Or.inl ?_⟩
    simp [TrieNode.children]
  | TrieNode.mk [(c, child)] e => by
    cases e with
    | true =>
      refine ⟨TrieNode.mk [(c, child)] true, by simp [lcpExt, findNode], Or.inr rfl⟩
    | false =>
      obtain ⟨m, hm, hstop⟩ := lcpExt_stop child
      refine ⟨m, ?_, hstop⟩
      simp [lcpExt, findNode, TrieNode.children, childLookup]
      exact hm
  | TrieNode.mk (a :: b :: rest) e => by
    refine ⟨TrieNode.mk (a :: b :: rest) e, ?_, Or.inl ?_⟩
    · simp [lcpExt, findNode]
    · simp [TrieNode.children]

/-- Every word collected below a node extends the prefix extended by the
extension loop: while a node has a unique child and no terminal flag, all
its words pass through that child. -/
theorem collect_ext :
    ∀ (n : TrieNode) (pre w : List Char), w ∈ collectWords n pre → (pre ++ lcpExt n) <+: w
  | TrieNode.mk [] e, pre, w => by
    intro hw
    simpa [lcpExt] using collect_pre (TrieNode.mk [] e) pre w hw
  | TrieNode.mk [(c, child)] true, pre, w => by
    intro hw
    simpa [lcpExt] using collect_pre (TrieNode.mk [(c, child)] true) pre w hw
  | TrieNode.mk [(c, child)] false, pre, w => by
    intro hw
    rw [collectWords] at hw
    simp only [Bool.false_eq_true, if_false, List.nil_append] at hw
    rw [collectChildren] at hw
    rw [collectChildren] at hw
    simp only [List.append_nil] at hw
    have h1 := collect_ext child (pre ++ [c]) w hw
    simpa [lcpExt, List.append_assoc] using h1
  | TrieNode.mk (a :: b :: rest) e, pre, w => by
    intro hw
    simpa [lcpExt] using collect_pre (TrieNode.mk (a :: b :: rest) e) pre w hw

/-- Unfolding of the group splitter at a delimiter token. -/
theorem split_go_delim (d : String) (rest : List String) (cur : List String) :
    split_vec_go d (d :: rest) cur =
      (if cur.isEmpty then [] else [cur]) ++ split_vec_go d rest [] := by
  by_cases hc : cur.isEmpty <;> simp [split_vec_go, hc]

/-- BufRead::lines takes a newline-free entry followed by a newline as one
line, stripped of a trailing carriage return. -/
theorem rustLinesGo_entry (e : List Char) (rest : List Char) (he : '\n' ∉ e) :
    ∀ cur, rustLinesGo (e ++ '\n' :: rest) cur =
      stripCR (cur ++ e) :: rustLinesGo rest [] := by
  induction e with
  | nil => intro cur; simp [rustLinesGo]
  | cons a l ih =>
    intro cur
    have ha : a ≠ '\n' := fun h => he (h ▸ List.mem_cons_self a l)
    have hl : '\n' ∉ l := fun h => he (List.mem_cons_of_mem a h)
    simp only [List.cons_append, rustLinesGo, if_neg ha, List.append_eq]
    rw [ih hl (cur ++ [a])]
    simp

/-- Rebuilding a string from its characters is the identity. -/
theorem string_mk_data (s : String) : String.mk s.data = s := by
  cases s
  rfl

/-- Reading the written history content recovers the entries' characters
when no entry contains a newline or ends in a carriage return. -/
theorem rustLines_write_content (stack : List String)
    (h : ∀ e ∈ stack, '\n' ∉ e.data ∧ e.data.getLast? ≠ some '\r') :
    rustLines (write_content stack) = stack.map String.data := by
  induction stack with
  | nil => rfl
  | cons e rest ih =>
    have he := h e (List.mem_cons_self e rest)
    have hwc : write_content (e :: rest) = e.data ++ '\n' :: write_content rest := by
      simp [write_content]
    rw [rustLines, hwc, rustLinesGo_entry e.data _ he.1 []]
    have hs : stripCR e.data = e.data := by simp [stripCR, he.2]
    simp only [List.nil_append, hs, List.map_cons]
    exact congrArg _ (ih (fun x hx => h x (List.mem_cons_of_mem e hx)))

/-! ## Claims -/

/-- Claim C1: a line whose stage ends in a redirection operator with no
following path is supposed to be reported as a lex error and discarded
without aborting the shell.  The code instead unwraps the missing operand
and panics, aborting the shell: lexing the line yields the modelled panic,
not a reported error. -/
theorem c1_dangling_redirection_panics :
    parse_args "echo hi >" = Option.none ∧
    extract_redirection ["echo", "hi", ">"] = Option.none := by decide

/-- Claim C2: a Stdout redirection with append=false is supposed to open
with create+truncate so the file afterwards holds exactly the bytes of
this stage.  The code never truncates and seeks to the end before writing,
so prior contents survive: writing new over a file holding old leaves
oldnew, for both the text and the byte writer. -/
theorem c2_stdout_redirect_keeps_prior_content :
    (output_string (Redirection.stdout "out" false)
        [("out", utf8Encode "old".data)] "new").fs =
      [("out", utf8Encode "oldnew".data)] ∧
    (output (Redirection.stdout "out" false) [("out", utf8Encode "old".data)]
        (utf8Encode "new".data)).fs =
      [("out", utf8Encode "oldnew".data)] := by decide

/-- Claim C3: read_input is supposed to restore cooked mode on every exit
path.  The Ctrl-C arm returns with raw mode still enabled, and so does the
error return when the read fails; only the submit path restores cooked
mode. -/
theorem c3_ctrl_c_leaves_raw_mode :
    (read_input Trie.new [] [3]).raw_mode = true ∧
    (read_input Trie.new [] [3]).outcome = ReadOutcome.cancelled ∧
    (read_input Trie.new [] [104, 105]).raw_mode = true ∧
    (read_input Trie.new [] [104, 105, 10]).raw_mode = false ∧
    (read_input Trie.new [] [104, 105, 10]).outcome =
      ReadOutcome.submitted "hi".data := by decide

/-- Claim C4: with Redirection::None both stderr writers are supposed to
write the data to terminal stderr.  The byte variant's None arm does
nothing — the buffer is silently dropped (also when it arrives from a
child's stderr stream) — while the text variant does write. -/
theorem c4_stderr_bytes_silently_dropped :
    (output_error Redirection.none [] (utf8Encode "oops".data)).term_err = [] ∧
    (output_error Redirection.none [] (utf8Encode "oops".data)).ret = false ∧
    (write_cmd_output Redirection.none []
        (CmdOutputM.stderrBytes (utf8Encode "oops".data))).term_err = [] ∧
    (write_cmd_output Redirection.none []
        (CmdOutputM.stream ⟨[], [], utf8Encode "oops".data⟩)).term_err = [] ∧
    (output_error_string Redirection.none [] "oops").term_err =
      [utf8Encode "oops".data ++ [10]] := by decide

/-- Claim C5 counterexample: for the line echo pipe followed by wc -c the
second stage is claimed to receive the 5 bytes of pipe plus newline and the
terminal to show 5.  The shell writes exactly the built-in's text — the 4
bytes of pipe, no newline appended — into the child's stdin, so with wc -c
counting stdin bytes the terminal output is not 5 followed by newline. -/
theorem c5_counterexample :
    ((runLine envWc [] "echo pipe | wc -c").1.traces.map StageTrace.child_stdin) =
      [Option.none, some (utf8Encode "pipe".data)] ∧
    (utf8Encode "pipe".data).length = 4 ∧
    (runLine envWc [] "echo pipe | wc -c").1.term_out ≠ [utf8Encode "5\n".data] := by decide

/-- Claim C5 as amended: for the line echo pipe piped into wc -c, the
second stage receives exactly the 4 bytes of pipe (the built-in's text with
no terminating newline) on its stdin, and with wc -c counting stdin bytes
the terminal output is 4 followed by a newline. -/
theorem c5_pipe_carries_four_bytes :
    (runLine envWc [] "echo pipe | wc -c").1.term_out = [utf8Encode "4\n".data] ∧
    ((runLine envWc [] "echo pipe | wc -c").1.traces.map StageTrace.child_stdin) =
      [Option.none, some (utf8Encode "pipe".data)] := by decide

/-- Claim C6 counterexample: a line with adjacent pipes is claimed to be a
lex error with the whole line discarded.  Lexing the line a pipe pipe b
reports nothing and yields the two non-empty stages, which main would then
execute. -/
theorem c6_counterexample :
    parse_args "a | | b" =
      some [(["a"], Redirection.none), (["b"], Redirection.none)] := by decide

/-- Claim C6 as amended: adjacent pipe tokens are not an error; the empty
stage between them is silently dropped, so the stages of a line with two
adjacent pipes are exactly those of the same line with one pipe, and the
remaining non-empty stages are executed. -/
theorem c6_adjacent_pipes_collapse (xs ys : List String) :
    split_vec_by_delimiter (xs ++ "|" :: "|" :: ys) "|" =
      split_vec_by_delimiter (xs ++ "|" :: ys) "|" := by
  suffices h : ∀ cur, split_vec_go "|" (xs ++ "|" :: "|" :: ys) cur =
      split_vec_go "|" (xs ++ "|" :: ys) cur from h []
  induction xs with
  | nil =>
    intro cur
    simp only [List.nil_append]
    rw [split_go_delim, split_go_delim, split_go_delim]
    simp
  | cons x xs ih =>
    intro cur
    by_cases hx : x = "|"
    · subst hx
      simp only [List.cons_append]
      rw [split_go_delim, split_go_delim, ih []]
    · simp only [List.cons_append, split_vec_go, if_neg hx]
      exact ih (cur ++ [x])

/-- Claim C7: every accepted non-empty line is supposed to produce at least
one stage, each with non-empty argv.  The line consisting of a redirection
operator and its path lexes without any error to one stage whose argv is
empty — on which main's indexing of argv[0] panics — and the line holding
a single pipe lexes to zero stages. -/
theorem c7_accepted_line_with_empty_argv :
    parse_args "> f" = some [([], Redirection.stdout "f" false)] ∧
    parse_args "|" = some [] := by decide

/-- Claim C8: after insert(w), contains(w) is supposed to be true for every
word.  Because insert and search compare byte positions against the byte
length, a word ending in a multi-byte character never receives the
terminal flag: search fails on the inserted word while the path exists.
The same slip makes the longest common extension walk straight through the
inserted word, contradicting the repository's own unicode test which
expects it to stop there. -/
theorem c8_multibyte_word_lost :
    (Trie.new.insert "é").search "é" = false ∧
    (Trie.new.insert "é").starts_with "é" = true ∧
    ((((Trie.new.insert "café").insert "cafétéria").insert
        "caffè").longest_common_ext "café") = "cafétéria" := by decide

/-- Claim C9: for every trie and non-empty prefix p, the longest common
extension is empty when p is absent; otherwise it is an existing path q
that begins with p, every completion of p begins with q, and q ends at a
node with zero children, two or more children, or a set terminal-word
flag (the early stop), so it is maximal in the claimed sense. -/
theorem c9_longest_common_ext_spec (t : Trie) (p : List Char) (hp : p ≠ []) :
    (findNode t.root p = Option.none → lcpChars t.root p = []) ∧
    (∀ n, findNode t.root p = some n →
      p <+: lcpChars t.root p ∧
      (∀ w ∈ completionsChars t.root p, lcpChars t.root p <+: w) ∧
      ∃ m, findNode t.root (lcpChars t.root p) = some m ∧
        ¬(m.children.length = 1 ∧ m.is_end = false)) := by
  have hpe : p.isEmpty = false := by
    cases p with
    | nil => exact absurd rfl hp
    | cons a l => rfl
  constructor
  · intro h
    simp [lcpChars, hpe, h]
  · intro n hn
    have hl : lcpChars t.root p = p ++ lcpExt n := by simp [lcpChars, hpe, hn]
    refine ⟨?_, ?_, ?_⟩
    · rw [hl]; exact List.prefix_append p _
    · intro w hw
      rw [hl]
      have hc : completionsChars t.root p = collectWords n p := by
        simp [completionsChars, hpe, hn]
      exact collect_ext n p w (hc ▸ hw)
    · obtain ⟨m, hm, hstop⟩ := lcpExt_stop n
      refine ⟨m, ?_, ?_⟩
      · rw [hl, findNode_append p t.root (lcpExt n), hn]; exact hm
      · rcases hstop with h | h
        · exact fun hcon => h hcon.1
        · intro hcon
          rw [hcon.2] at h
          cases h

/-- A small populated trie used to witness the C9 theorem. -/
def witnessTrie : Trie := (Trie.new.insert "ab").insert "ac"

/-- Witness for claim C9 at a concrete trie and prefix. -/
theorem c9_longest_common_ext_spec_witness :
    (['a'] : List Char) ≠ [] ∧
    ((findNode witnessTrie.root ['a'] = Option.none →
        lcpChars witnessTrie.root ['a'] = []) ∧
      (∀ n, findNode witnessTrie.root ['a'] = some n →
        ['a'] <+: lcpChars witnessTrie.root ['a'] ∧
        (∀ w ∈ completionsChars witnessTrie.root ['a'],
          lcpChars witnessTrie.root ['a'] <+: w) ∧
        ∃ m, findNode witnessTrie.root (lcpChars witnessTrie.root ['a']) = some m ∧
          ¬(m.children.length = 1 ∧ m.is_end = false))) :=
  ⟨by decide, c9_longest_common_ext_spec witnessTrie ['a'] (by decide)⟩

/-- Claim C10 counterexample: the round trip is claimed to restore every
history whose entries contain no newline.  The entry consisting of the
letter a and a carriage return contains no newline, yet writing and
re-loading it drops the carriage return, because BufRead::lines strips a
carriage return before each newline. -/
theorem c10_counterexample :
    ('\n' ∉ "a\r".data) ∧
    historyRoundTrip ["a\r"] = ["a"] ∧
    (["a"] : List String) ≠ ["a\r"] := by decide

/-- Claim C10 as amended: write_to_file with append=false followed by
set_from_file restores exactly the original entry sequence provided no
entry contains a newline and no entry ends with a carriage return (and the
file operations succeed). -/
theorem c10_history_round_trip (stack : List String)
    (h : ∀ e ∈ stack, '\n' ∉ e.data ∧ e.data.getLast? ≠ some '\r') :
    historyRoundTrip stack = stack := by
  unfold historyRoundTrip set_from_file load_file write_to_file
  simp only [Option.getD, List.nil_append, if_false]
  rw [show ((if false = true then [] else []) ++ write_content stack) =
    write_content stack by simp]
  rw [rustLines_write_content stack h, List.map_map]
  have hid : (String.mk ∘ String.data) = id := funext string_mk_data
  rw [hid, List.map_id]

/-- Witness for claim C10 at a concrete history. -/
theorem c10_history_round_trip_witness :
    (∀ e ∈ (["ls", "echo hi"] : List String),
      '\n' ∉ e.data ∧ e.data.getLast? ≠ some '\r') ∧
    historyRoundTrip ["ls", "echo hi"] = ["ls", "echo hi"] :=
  ⟨by decide, c10_history_round_trip ["ls", "echo hi"] (by decide)⟩

end Shell
